import Mathlib

/-!
Frame composite generator

A shallow embedding of `FrameCompositeGenerator` (script.js): frame-opening
detection, placement geometry, layer order, the batch run and the product
upload / removal bookkeeping.

Numbers that the script computes with `/` and `* 0.2` are rationals here
(exact arithmetic); pixel coordinates, byte values, ids and clock readings
are naturals.
-/

namespace FrameComposite

/-! ## Data model -/

/-- A decoded image: the `width`, `height` of an `Image` element together with
the RGBA bytes that `getImageData` yields for it (row-major, 4 per pixel). -/
structure Image where
  width : Nat
  height : Nat
  data : List Nat
deriving DecidableEq, Repr

/-- The object literal returned by `detectFrameArea`: `x`, `y`, `width`, `height`. -/
structure Rectangle where
  x : ℚ
  y : ℚ
  width : ℚ
  height : ℚ
deriving DecidableEq

/-- The four running bounds `minX, minY, maxX, maxY` of the detection scan. -/
@[ext]
structure Bounds where
  minX : Nat
  minY : Nat
  maxX : Nat
  maxY : Nat
deriving DecidableEq, Repr

/-! ## detectFrameArea -/

/-- The test `alpha < 50 || brightness > 200` at pixel `(x, y)`, with
`i = (y * width + x) * 4`, `alpha = data[i + 3]` and
`brightness = (data[i] + data[i + 1] + data[i + 2]) / 3`.
A read past the end of `data` is `undefined` in the script, which makes the
comparison it takes part in false. -/
def isOpening (img : Image) (x y : Nat) : Bool :=
  let i := (y * img.width + x) * 4
  let alphaLow : Bool :=
    match img.data[i + 3]? with
    | some alpha => decide (alpha < 50)
    | none => false
  let bright : Bool :=
    match img.data[i]?, img.data[i + 1]?, img.data[i + 2]? with
    | some r, some g, some b => decide ((((r : ℚ) + (g : ℚ) + (b : ℚ)) / 3) > 200)
    | _, _, _ => false
  alphaLow || bright

/-- The body of the inner loop: when the pixel is an opening pixel the four
bounds are updated with `Math.min` / `Math.max`. -/
def scanStep (img : Image) (b : Bounds) (x y : Nat) : Bounds :=
  if isOpening img x y then
    { minX := min b.minX x, minY := min b.minY y,
      maxX := max b.maxX x, maxY := max b.maxY y }
  else b

/-- The inner loop `for (let x = 0; x < canvas.width; x++)` of row `y`. -/
def scanRow (img : Image) (y : Nat) (b : Bounds) : Bounds :=
  (List.range img.width).foldl (fun acc x => scanStep img acc x y) b

/-- The outer loop `for (let y = 0; y < canvas.height; y++)`, started from
`minX = canvas.width, minY = canvas.height, maxX = 0, maxY = 0`. -/
def scan (img : Image) : Bounds :=
  (List.range img.height).foldl (fun acc y => scanRow img y acc)
    { minX := img.width, minY := img.height, maxX := 0, maxY := 0 }

/-- The tail of `detectFrameArea`: the fallback test
`minX >= maxX || minY >= maxY` with `padding = min(width, height) * 0.2`,
and the returned rectangle `(minX, minY, maxX - minX, maxY - minY)`. -/
def rectOfBounds (width height : Nat) (b : Bounds) : Rectangle :=
  if b.minX ≥ b.maxX ∨ b.minY ≥ b.maxY then
    let padding : ℚ := ((min width height : Nat) : ℚ) * 0.2
    let minX := padding
    let minY := padding
    let maxX := (width : ℚ) - padding
    let maxY := (height : ℚ) - padding
    { x := minX, y := minY, width := maxX - minX, height := maxY - minY }
  else
    { x := b.minX, y := b.minY,
      width := (b.maxX : ℚ) - (b.minX : ℚ), height := (b.maxY : ℚ) - (b.minY : ℚ) }

/-- The function `detectFrameArea(frameImage)`. -/
def detectFrameArea (frameImage : Image) : Rectangle :=
  rectOfBounds frameImage.width frameImage.height (scan frameImage)

/-- Whether `detectFrameArea` takes its fallback branch on this frame. -/
def usesFallback (frameImage : Image) : Bool :=
  decide ((scan frameImage).minX ≥ (scan frameImage).maxX ∨
    (scan frameImage).minY ≥ (scan frameImage).maxY)

/-- The same scan taken over an arbitrary list of pixel coordinates. -/
def scanOver (img : Image) (coords : List (Nat × Nat)) (b : Bounds) : Bounds :=
  coords.foldl (fun acc p => scanStep img acc p.1 p.2) b

/-- The coordinates in the order the script visits them: row by row. -/
def rowMajor (width height : Nat) : List (Nat × Nat) :=
  (List.range height).flatMap (fun y => (List.range width).map (fun x => (x, y)))

/-- Detection with the pixels visited in the order `coords`. -/
def detectFrameAreaOver (frameImage : Image) (coords : List (Nat × Nat)) : Rectangle :=
  rectOfBounds frameImage.width frameImage.height
    (scanOver frameImage coords
      { minX := frameImage.width, minY := frameImage.height, maxX := 0, maxY := 0 })

/-- A `width × height` frame whose every byte is 0 (fully transparent). -/
def transparentFrame (width height : Nat) : Image :=
  { width := width, height := height, data := List.replicate (width * height * 4) 0 }

/-- Pixel `(x, y)` lies in the frame and passes the opening test. -/
def IsOpeningPixel (img : Image) (x y : Nat) : Prop :=
  x < img.width ∧ y < img.height ∧ isOpening img x y = true

instance (img : Image) (x y : Nat) : Decidable (IsOpeningPixel img x y) := by
  unfold IsOpeningPixel; infer_instance

/-- The columns `mnx`, `mxx` and rows `mny`, `mxy` are the least and greatest
column and the least and greatest row that hold an opening pixel. -/
def OpeningExtent (img : Image) (mnx mny mxx mxy : Nat) : Prop :=
  (∃ y, y < img.height ∧ IsOpeningPixel img mnx y) ∧
  (∃ y, y < img.height ∧ IsOpeningPixel img mxx y) ∧
  (∃ x, x < img.width ∧ IsOpeningPixel img x mny) ∧
  (∃ x, x < img.width ∧ IsOpeningPixel img x mxy) ∧
  (∀ x, x < img.width → ∀ y, y < img.height → IsOpeningPixel img x y →
    mnx ≤ x ∧ x ≤ mxx ∧ mny ≤ y ∧ y ≤ mxy)

instance (img : Image) (mnx mny mxx mxy : Nat) :
    Decidable (OpeningExtent img mnx mny mxx mxy) := by
  unfold OpeningExtent; infer_instance

/-! ## createComposite -/

/-- The four numbers `drawX, drawY, drawWidth, drawHeight`. -/
structure DrawRect where
  drawX : ℚ
  drawY : ℚ
  drawWidth : ℚ
  drawHeight : ℚ
deriving DecidableEq

/-- The placement computed in `createComposite`: the two aspect ratios and the
branch on `productAspectRatio > frameAspectRatio`. -/
def placement (productImage : Image) (frameArea : Rectangle) : DrawRect :=
  let frameAspectRatio := frameArea.width / frameArea.height
  let productAspectRatio := (productImage.width : ℚ) / (productImage.height : ℚ)
  if productAspectRatio > frameAspectRatio then
    let drawWidth := frameArea.width
    let drawHeight := frameArea.width / productAspectRatio
    let drawX := frameArea.x
    let drawY := frameArea.y + (frameArea.height - drawHeight) / 2
    { drawX := drawX, drawY := drawY, drawWidth := drawWidth, drawHeight := drawHeight }
  else
    let drawHeight := frameArea.height
    let drawWidth := frameArea.height * productAspectRatio
    let drawX := frameArea.x + (frameArea.width - drawWidth) / 2
    let drawY := frameArea.y
    { drawX := drawX, drawY := drawY, drawWidth := drawWidth, drawHeight := drawHeight }

/-- A call of `ctx.drawImage`: the five-argument form (scaled into a rectangle)
or the three-argument form (unscaled, at an offset). -/
inductive DrawOp where
  | scaled (image : Image) (rect : DrawRect)
  | unscaled (image : Image) (dx dy : Nat)
deriving DecidableEq

/-- A canvas: its size and the `drawImage` calls made on it, oldest first. -/
structure Canvas where
  width : Nat
  height : Nat
  ops : List DrawOp
deriving DecidableEq

/-- The function `createComposite(frameImage, productImage, frameArea)`: a canvas
of the frame's size, the product drawn into its placement, then the frame
drawn at `(0, 0)`. -/
def createComposite (frameImage productImage : Image) (frameArea : Rectangle) : Canvas :=
  { width := frameImage.width
    height := frameImage.height
    ops := [DrawOp.scaled productImage (placement productImage frameArea),
            DrawOp.unscaled frameImage 0 0] }

/-! ### Canvas semantics (the 2D context, not the script)

The default compositing operation of a 2D context is source-over. Colours are
kept unpremultiplied with every channel on the 0..255 scale. How a scaled
image is resampled is left to the platform and enters as a parameter. -/

/-- An RGBA pixel, channels on the 0..255 scale. -/
structure Pixel where
  r : ℚ
  g : ℚ
  b : ℚ
  a : ℚ
deriving DecidableEq

/-- The pixel of an image at `(x, y)`, when it has one. -/
def Image.pixelAt (img : Image) (x y : Nat) : Option Pixel :=
  if x < img.width ∧ y < img.height then
    let i := (y * img.width + x) * 4
    match img.data[i]?, img.data[i + 1]?, img.data[i + 2]?, img.data[i + 3]? with
    | some r, some g, some b, some a => some { r := r, g := g, b := b, a := a }
    | _, _, _, _ => none
  else none

/-- Porter-Duff source-over of `src` onto `dst`. -/
def sourceOver (src dst : Pixel) : Pixel :=
  let sa := src.a / 255
  let da := dst.a / 255
  let oa := sa + da * (1 - sa)
  let mix := fun (s d : ℚ) => if oa = 0 then 0 else (s * sa + d * da * (1 - sa)) / oa
  { r := mix src.r dst.r, g := mix src.g dst.g, b := mix src.b dst.b, a := oa * 255 }

/-- What one `drawImage` call contributes at canvas pixel `(x, y)`. -/
def DrawOp.layer (resample : Image → DrawRect → Nat → Nat → Option Pixel) :
    DrawOp → Nat → Nat → Option Pixel
  | DrawOp.scaled image rect, x, y => resample image rect x y
  | DrawOp.unscaled image dx dy, x, y =>
    if dx ≤ x ∧ dy ≤ y then image.pixelAt (x - dx) (y - dy) else none

/-- The pixel of a canvas at `(x, y)`: the draw calls blended in order onto
transparent black. -/
def Canvas.render (resample : Image → DrawRect → Nat → Nat → Option Pixel)
    (c : Canvas) (x y : Nat) : Option Pixel :=
  if x < c.width ∧ y < c.height then
    some (c.ops.foldl
      (fun dst op =>
        match op.layer resample x y with
        | some src => sourceOver src dst
        | none => dst)
      { r := 0, g := 0, b := 0, a := 0 })
  else none

/-! ## Application state -/

/-- An uploaded file: its name and MIME type. -/
structure File where
  name : String
  type : String
deriving DecidableEq, Repr

/-- An entry of `productImages`. -/
structure ProductItem where
  file : File
  image : Image
  id : Nat
deriving DecidableEq

/-- An entry of `processedImages`. -/
structure ProcessedImage where
  canvas : Canvas
  name : String
  originalName : String
deriving DecidableEq

/-- The fields of the generator that the modelled methods read and write. -/
structure State where
  frameImage : Option Image
  productImages : List ProductItem
  processedImages : List ProcessedImage
deriving DecidableEq

/-- The calls a method makes, in the order it makes them. -/
inductive Event where
  | activateStep (step : Nat)
  | showProcessingProgress
  | detectFrameArea (frameImage : Image)
  | createComposite (frameImage productImage : Image) (frameArea : Rectangle)
  | pushProcessed (name : String)
  | updateProcessingProgress (current total : Nat)
  | addResultPreview (name : String)
  | hideProcessingProgress
  | enableDownloads
  | alert (message : String)
  | showUploadProgress
  | loadImage (file : File)
  | loadImageRejected (file : File)
  | pushProduct (id : Nat)
  | updateUploadProgress (current total : Nat)
  | addProductThumbnail (id : Nat)
  | hideUploadProgress
  | removeThumbnail (id : Nat)
  | updateGenerateButton
deriving DecidableEq

/-! ## generateComposites -/

/-- The loop of `generateComposites` from index `i` on, `rest` being
`productImages[i], productImages[i + 1], ...` and `total` being
`productImages.length`. -/
def compositeLoop (frameImage : Image) (frameArea : Rectangle) (total : Nat) :
    List ProductItem → Nat → State × List Event → State × List Event
  | [], _, acc => acc
  | productImage :: rest, i, (s, log) =>
    let composite := createComposite frameImage productImage.image frameArea
    let s1 : State :=
      { s with processedImages := s.processedImages ++
          [{ canvas := composite, name := toString (i + 1) ++ ".png",
             originalName := productImage.file.name }] }
    compositeLoop frameImage frameArea total rest (i + 1)
      (s1, log ++
        [Event.createComposite frameImage productImage.image frameArea,
         Event.pushProcessed (toString (i + 1) ++ ".png"),
         Event.updateProcessingProgress (i + 1) total,
         Event.addResultPreview (toString (i + 1) ++ ".png")])

/-- The method `generateComposites()`: the new state and the calls made. -/
def generateComposites (s : State) : State × List Event :=
  match s.frameImage with
  | none => (s, [])
  | some frameImage =>
    if s.productImages.length = 0 then (s, [])
    else
      let s0 : State := { s with processedImages := [] }
      let frameArea := detectFrameArea frameImage
      let (s1, log) :=
        compositeLoop frameImage frameArea s.productImages.length s.productImages 0
          (s0, [Event.activateStep 4, Event.showProcessingProgress,
                Event.detectFrameArea frameImage])
      (s1, log ++ [Event.hideProcessingProgress, Event.enableDownloads])

/-! ## Product upload and removal -/

/-- The method `isValidImageFile(file)`. -/
def isValidImageFile (file : File) : Bool :=
  "image/".data.isPrefixOf file.type.data &&
    ["image/jpeg", "image/png", "image/gif", "image/webp"].contains file.type

/-- The loop of `handleProductUpload` from index `i` on. `loadImage` is the
decoder (`none` when the promise rejects, which ends the method there) and
`now i` is what `Date.now()` returns in iteration `i`. -/
def uploadLoop (loadImage : File → Option Image) (now : Nat → Nat) (total : Nat) :
    List File → Nat → State × List Event → State × List Event × Bool
  | [], _, (s, log) => (s, log, true)
  | file :: rest, i, (s, log) =>
    match loadImage file with
    | none => (s, log ++ [Event.loadImage file, Event.loadImageRejected file], false)
    | some image =>
      let item : ProductItem := { file := file, image := image, id := now i + i }
      let s1 : State := { s with productImages := s.productImages ++ [item] }
      uploadLoop loadImage now total rest (i + 1)
        (s1, log ++
          [Event.loadImage file, Event.pushProduct item.id,
           Event.updateUploadProgress (i + 1) total,
           Event.addProductThumbnail item.id])

/-- The method `handleProductUpload(e)` with `e.target.files = files`. -/
def handleProductUpload (loadImage : File → Option Image) (now : Nat → Nat)
    (files : List File) (s : State) : State × List Event :=
  let validFiles := files.filter isValidImageFile
  if validFiles.length = 0 then
    (s, [Event.alert "Please upload valid image files (JPG, PNG, GIF)"])
  else
    match uploadLoop loadImage now validFiles.length validFiles 0
        (s, [Event.showUploadProgress]) with
    | (s1, log, true) =>
      (s1, log ++ [Event.hideUploadProgress, Event.activateStep 3, Event.updateGenerateButton])
    | (s1, log, false) => (s1, log)

/-- The method `removeProductImage(id)`. -/
def removeProductImage (id : Nat) (s : State) : State × List Event :=
  ({ s with productImages := s.productImages.filter (fun img => img.id != id) },
   [Event.removeThumbnail id, Event.updateGenerateButton])

/-! ## Reading the call log -/

/-- The `(current, total)` pair of a processing-progress update. -/
def Event.progress : Event → Option (Nat × Nat)
  | Event.updateProcessingProgress current total => some (current, total)
  | _ => none

/-- The file handed to the decoder by a `loadImage` call. -/
def Event.loadedFile : Event → Option File
  | Event.loadImage file => some file
  | _ => none

/-- Whether the call is a detection or a compositing call. -/
def Event.isDetectOrComposite : Event → Bool
  | Event.detectFrameArea _ => true
  | Event.createComposite _ _ _ => true
  | _ => false

/-- The entry that `generateComposites` appends for the product at index `i`. -/
def resultFor (frameImage : Image) (frameArea : Rectangle) (ip : Nat × ProductItem) :
    ProcessedImage :=
  { canvas := createComposite frameImage ip.2.image frameArea
    name := toString (ip.1 + 1) ++ ".png"
    originalName := ip.2.file.name }

/-- The calls of one iteration of the `generateComposites` loop, in order. -/
def callsFor (frameImage : Image) (frameArea : Rectangle) (total : Nat)
    (ip : Nat × ProductItem) : List Event :=
  [Event.createComposite frameImage ip.2.image frameArea,
   Event.pushProcessed (toString (ip.1 + 1) ++ ".png"),
   Event.updateProcessingProgress (ip.1 + 1) total,
   Event.addResultPreview (toString (ip.1 + 1) ++ ".png")]

/-! ## Sample inputs -/

/-- A 4 × 4 frame, opaque black except a transparent pixel at `(1, 1)` and an
opaque white pixel at `(2, 2)`. -/
def sampleFrame : Image :=
  { width := 4, height := 4,
    data := [0, 0, 0, 255,  0, 0, 0, 255,  0, 0, 0, 255,  0, 0, 0, 255,
             0, 0, 0, 255,  0, 0, 0, 0,    0, 0, 0, 255,  0, 0, 0, 255,
             0, 0, 0, 255,  0, 0, 0, 255,  255, 255, 255, 255,  0, 0, 0, 255,
             0, 0, 0, 255,  0, 0, 0, 255,  0, 0, 0, 255,  0, 0, 0, 255] }

/-- A 2 × 2 frame that is opaque black throughout. -/
def opaqueFrame : Image :=
  { width := 2, height := 2,
    data := [0, 0, 0, 255,  0, 0, 0, 255,  0, 0, 0, 255,  0, 0, 0, 255] }

/-- A 3 × 3 opaque black frame whose middle column is transparent. -/
def columnFrame : Image :=
  { width := 3, height := 3,
    data := [0, 0, 0, 255,  0, 0, 0, 0,  0, 0, 0, 255,
             0, 0, 0, 255,  0, 0, 0, 0,  0, 0, 0, 255,
             0, 0, 0, 255,  0, 0, 0, 0,  0, 0, 0, 255] }

/-- The opening of the worked example: `(0, 0, 400, 300)`. -/
def exampleOpening : Rectangle := { x := 0, y := 0, width := 400, height := 300 }

/-- The 800 × 400 product of the worked example, fully transparent. -/
def exampleProduct : Image := transparentFrame 800 400

/-- A tiny decoded product image. -/
def dot : Image := { width := 1, height := 1, data := [10, 20, 30, 255] }

/-- Three pending products and results left over from an earlier run. -/
def sampleState : State :=
  { frameImage := some sampleFrame
    productImages :=
      [{ file := { name := "a.jpg", type := "image/jpeg" }, image := dot, id := 7 },
       { file := { name := "b.png", type := "image/png" }, image := dot, id := 8 },
       { file := { name := "c.gif", type := "image/gif" }, image := dot, id := 9 }]
    processedImages :=
      [{ canvas := { width := 4, height := 4, ops := [] }, name := "1.png",
         originalName := "old.png" }] }

/-- The same state after the user switched the frame selector to "custom":
no frame, the earlier results still held. -/
def staleState : State := { sampleState with frameImage := none }

/-- A resampler that paints opaque red wherever it is asked for a pixel. -/
def redEverywhere : Image → DrawRect → Nat → Nat → Option Pixel :=
  fun _ _ _ _ => some { r := 255, g := 0, b := 0, a := 255 }

/-- A decoder that succeeds on every file. -/
def decodeDot : File → Option Image := fun _ => some dot

/-- A decoder that rejects every file. -/
def decodeNothing : File → Option Image := fun _ => none

/-- The state of a fresh generator with no frame loaded yet. -/
def emptyState : State := { frameImage := none, productImages := [], processedImages := [] }

/-- Three image files and one text file. -/
def fileA : File := { name := "a.jpg", type := "image/jpeg" }

/-- A PNG file. -/
def fileB : File := { name := "b.png", type := "image/png" }

/-- A WebP file. -/
def fileC : File := { name := "c.webp", type := "image/webp" }

/-- A plain-text file. -/
def notes : File := { name := "notes.txt", type := "text/plain" }

/-- The clock during a first upload of two files: `Date.now()` is 1000 in
iteration 0 and 1004 in iteration 1. -/
def firstClock : Nat → Nat := fun i => 1000 + 4 * i

/-- The clock during a later upload of one file: `Date.now()` is 1005. -/
def secondClock : Nat → Nat := fun _ => 1005

/-- The state after uploading `a.jpg` and `b.png` into a fresh generator. -/
def afterFirstUpload : State :=
  (handleProductUpload decodeDot firstClock [fileA, fileB] emptyState).1

/-- The state after then uploading `c.webp`. -/
def afterSecondUpload : State :=
  (handleProductUpload decodeDot secondClock [fileC] afterFirstUpload).1

/-! ## Lemmas on the scan -/

theorem isOpening_iff (img : Image) (x y : Nat) :
    isOpening img x y = true ↔
      (∃ a, img.data[(y * img.width + x) * 4 + 3]? = some a ∧ a < 50) ∨
      (∃ r g b, img.data[(y * img.width + x) * 4]? = some r ∧
        img.data[(y * img.width + x) * 4 + 1]? = some g ∧
        img.data[(y * img.width + x) * 4 + 2]? = some b ∧ 600 < r + g + b) := by
  have key : ∀ r g b : Nat, (200 : ℚ) < ((r : ℚ) + (g : ℚ) + (b : ℚ)) / 3 ↔ 600 < r + g + b := by
    intro r g b
    rw [lt_div_iff₀ (by norm_num : (0 : ℚ) < 3)]
    constructor
    · intro h
      have h2 : ((600 : Nat) : ℚ) < ((r + g + b : Nat) : ℚ) := by push_cast; linarith
      exact_mod_cast h2
    · intro h
      have h2 : ((600 : Nat) : ℚ) < ((r + g + b : Nat) : ℚ) := by exact_mod_cast h
      push_cast at h2; linarith
  unfold isOpening
  simp only [Bool.or_eq_true]
  constructor
  · rintro (h | h)
    · left
      split at h
      · rename_i a ha; exact ⟨a, ha, by simpa using h⟩
      · simp at h
    · right
      split at h
      · rename_i r g b hr hg hb
        exact ⟨r, g, b, hr, hg, hb, (key r g b).1 (by simpa using h)⟩
      · simp at h
  · rintro (⟨a, ha, hlt⟩ | ⟨r, g, b, hr, hg, hb, hlt⟩)
    · left; rw [ha]; simpa using hlt
    · right; rw [hr, hg, hb]; simpa using (key r g b).2 hlt

theorem mem_rowMajor (w h x y : Nat) : (x, y) ∈ rowMajor w h ↔ x < w ∧ y < h := by
  simp only [rowMajor, List.mem_flatMap, List.mem_map, List.mem_range, Prod.mk.injEq]
  constructor
  · rintro ⟨a, ha, b, hb, rfl, rfl⟩
    exact ⟨hb, ha⟩
  · rintro ⟨hx, hy⟩
    exact ⟨y, hy, x, hx, rfl, rfl⟩

theorem scan_eq_scanOver (img : Image) :
    scan img = scanOver img (rowMajor img.width img.height)
      { minX := img.width, minY := img.height, maxX := 0, maxY := 0 } := by
  unfold scan scanOver rowMajor
  generalize (⟨img.width, img.height, 0, 0⟩ : Bounds) = b
  induction List.range img.height generalizing b with
  | nil => rfl
  | cons y ys ih =>
    rw [List.foldl_cons, List.flatMap_cons, List.foldl_append, ih]
    congr 1
    simp [scanRow, List.foldl_map]

theorem detectFrameArea_eq_over (img : Image) :
    detectFrameArea img = detectFrameAreaOver img (rowMajor img.width img.height) := by
  unfold detectFrameArea detectFrameAreaOver
  rw [scan_eq_scanOver]

theorem scanStep_comm (img : Image) (b : Bounds) (p q : Nat × Nat) :
    scanStep img (scanStep img b p.1 p.2) q.1 q.2 =
      scanStep img (scanStep img b q.1 q.2) p.1 p.2 := by
  unfold scanStep
  by_cases hp : isOpening img p.1 p.2 <;> by_cases hq : isOpening img q.1 q.2 <;>
    simp [hp, hq, min_assoc, max_assoc, min_comm, max_comm, min_left_comm, max_left_comm]

theorem scanOver_perm (img : Image) {l₁ l₂ : List (Nat × Nat)} (hp : l₁.Perm l₂) (b : Bounds) :
    scanOver img l₁ b = scanOver img l₂ b := by
  unfold scanOver
  exact hp.foldl_eq' (fun x _ y _ z => scanStep_comm img z x y) b

theorem scanOver_cons (img : Image) (p : Nat × Nat) (l : List (Nat × Nat)) (b : Bounds) :
    scanOver img (p :: l) b = scanOver img l (scanStep img b p.1 p.2) := rfl

theorem scanStep_bounds (img : Image) (b : Bounds) (x y : Nat) :
    (scanStep img b x y).minX ≤ b.minX ∧ (scanStep img b x y).minY ≤ b.minY ∧
      b.maxX ≤ (scanStep img b x y).maxX ∧ b.maxY ≤ (scanStep img b x y).maxY := by
  unfold scanStep
  split <;> simp

/-- The running minima only decrease and the running maxima only increase. -/
theorem scanOver_bounds (img : Image) (l : List (Nat × Nat)) (b : Bounds) :
    (scanOver img l b).minX ≤ b.minX ∧ (scanOver img l b).minY ≤ b.minY ∧
      b.maxX ≤ (scanOver img l b).maxX ∧ b.maxY ≤ (scanOver img l b).maxY := by
  induction l generalizing b with
  | nil => simp [scanOver]
  | cons p l ih =>
    rw [scanOver_cons]
    have h1 := ih (scanStep img b p.1 p.2)
    have h2 := scanStep_bounds img b p.1 p.2
    omega

/-- Every opening pixel that was visited lies between the final bounds. -/
theorem scanOver_covers (img : Image) (l : List (Nat × Nat)) (b : Bounds) :
    ∀ p ∈ l, isOpening img p.1 p.2 = true →
      (scanOver img l b).minX ≤ p.1 ∧ p.1 ≤ (scanOver img l b).maxX ∧
      (scanOver img l b).minY ≤ p.2 ∧ p.2 ≤ (scanOver img l b).maxY := by
  induction l generalizing b with
  | nil => intro p hp; cases hp
  | cons q l ih =>
    intro p hp hop
    rw [scanOver_cons]
    rcases List.mem_cons.1 hp with rfl | hmem
    · have h1 := scanOver_bounds img l (scanStep img b p.1 p.2)
      have h2 : (scanStep img b p.1 p.2).minX ≤ p.1 ∧ p.1 ≤ (scanStep img b p.1 p.2).maxX ∧
          (scanStep img b p.1 p.2).minY ≤ p.2 ∧ p.2 ≤ (scanStep img b p.1 p.2).maxY := by
        simp [scanStep, hop]
      omega
    · exact ih (scanStep img b q.1 q.2) p hmem hop

/-- Each final bound is either the initial one or a coordinate of a visited
opening pixel. -/
theorem scanOver_attained (img : Image) (l : List (Nat × Nat)) (b : Bounds) :
    ((scanOver img l b).minX = b.minX ∨
        ∃ p ∈ l, isOpening img p.1 p.2 = true ∧ p.1 = (scanOver img l b).minX) ∧
    ((scanOver img l b).minY = b.minY ∨
        ∃ p ∈ l, isOpening img p.1 p.2 = true ∧ p.2 = (scanOver img l b).minY) ∧
    ((scanOver img l b).maxX = b.maxX ∨
        ∃ p ∈ l, isOpening img p.1 p.2 = true ∧ p.1 = (scanOver img l b).maxX) ∧
    ((scanOver img l b).maxY = b.maxY ∨
        ∃ p ∈ l, isOpening img p.1 p.2 = true ∧ p.2 = (scanOver img l b).maxY) := by
  induction l generalizing b with
  | nil => simp [scanOver]
  | cons q l ih =>
    rw [scanOver_cons]
    obtain ⟨h1, h2, h3, h4⟩ := ih (scanStep img b q.1 q.2)
    have lift : ∀ (P : Nat × Nat → Prop), (∃ p ∈ l, P p) → ∃ p ∈ q :: l, P p := by
      rintro P ⟨p, hp, hP⟩
      exact ⟨p, List.mem_cons_of_mem _ hp, hP⟩
    by_cases hq : isOpening img q.1 q.2 = true
    · have e : scanStep img b q.1 q.2 =
          { minX := min b.minX q.1, minY := min b.minY q.2,
            maxX := max b.maxX q.1, maxY := max b.maxY q.2 } := by
        simp [scanStep, hq]
      rw [e] at h1 h2 h3 h4 ⊢
      refine ⟨?_, ?_, ?_, ?_⟩
      · rcases h1 with h | h
        · rcases Nat.le_total b.minX q.1 with hle | hle
          · left; rw [h]; exact Nat.min_eq_left hle
          · right; exact ⟨q, List.mem_cons_self _ _, hq, by rw [h]; exact (Nat.min_eq_right hle).symm⟩
        · right; exact lift _ h
      · rcases h2 with h | h
        · rcases Nat.le_total b.minY q.2 with hle | hle
          · left; rw [h]; exact Nat.min_eq_left hle
          · right; exact ⟨q, List.mem_cons_self _ _, hq, by rw [h]; exact (Nat.min_eq_right hle).symm⟩
        · right; exact lift _ h
      · rcases h3 with h | h
        · rcases Nat.le_total b.maxX q.1 with hle | hle
          · right; exact ⟨q, List.mem_cons_self _ _, hq, by rw [h]; exact (Nat.max_eq_right hle).symm⟩
          · left; rw [h]; exact Nat.max_eq_left hle
        · right; exact lift _ h
      · rcases h4 with h | h
        · rcases Nat.le_total b.maxY q.2 with hle | hle
          · right; exact ⟨q, List.mem_cons_self _ _, hq, by rw [h]; exact (Nat.max_eq_right hle).symm⟩
          · left; rw [h]; exact Nat.max_eq_left hle
        · right; exact lift _ h
    · have e : scanStep img b q.1 q.2 = b := by simp [scanStep, hq]
      rw [e] at h1 h2 h3 h4 ⊢
      exact ⟨h1.imp id (lift _), h2.imp id (lift _), h3.imp id (lift _), h4.imp id (lift _)⟩

/-- Without a visited opening pixel the bounds stay as they were. -/
theorem scanOver_of_no_opening (img : Image) (l : List (Nat × Nat)) (b : Bounds)
    (h : ∀ p ∈ l, isOpening img p.1 p.2 = false) : scanOver img l b = b := by
  induction l generalizing b with
  | nil => rfl
  | cons q l ih =>
    rw [scanOver_cons]
    have hq : scanStep img b q.1 q.2 = b := by
      simp [scanStep, h q (List.mem_cons_self _ _)]
    rw [hq]
    exact ih b (fun p hp => h p (List.mem_cons_of_mem _ hp))

/-- The scan over any list that holds exactly the frame's pixels ends with the
least and greatest column and row of the opening pixels. -/
theorem scanOver_of_extent (img : Image) (l : List (Nat × Nat))
    (hl : ∀ x y, (x, y) ∈ l ↔ x < img.width ∧ y < img.height)
    (mnx mny mxx mxy : Nat) (hext : OpeningExtent img mnx mny mxx mxy) :
    scanOver img l { minX := img.width, minY := img.height, maxX := 0, maxY := 0 } =
      { minX := mnx, minY := mny, maxX := mxx, maxY := mxy } := by
  obtain ⟨⟨ya, _, ha⟩, ⟨yb, _, hb⟩, ⟨xc, _, hc⟩, ⟨xd, _, hd⟩, hall⟩ := hext
  have cov := scanOver_covers img l ⟨img.width, img.height, 0, 0⟩
  obtain ⟨a1, a2, a3, a4⟩ := scanOver_attained img l ⟨img.width, img.height, 0, 0⟩
  have ca := cov (mnx, ya) ((hl _ _).2 ⟨ha.1, ha.2.1⟩) ha.2.2
  have cb := cov (mxx, yb) ((hl _ _).2 ⟨hb.1, hb.2.1⟩) hb.2.2
  have cc := cov (xc, mny) ((hl _ _).2 ⟨hc.1, hc.2.1⟩) hc.2.2
  have cd := cov (xd, mxy) ((hl _ _).2 ⟨hd.1, hd.2.1⟩) hd.2.2
  have inb : ∀ p ∈ l, isOpening img p.1 p.2 = true →
      mnx ≤ p.1 ∧ p.1 ≤ mxx ∧ mny ≤ p.2 ∧ p.2 ≤ mxy := by
    rintro ⟨x, y⟩ hp hop
    have hxy := (hl x y).1 hp
    exact hall x hxy.1 y hxy.2 ⟨hxy.1, hxy.2, hop⟩
  have hax := ha.1
  have hcy := hc.2.1
  simp only at ca cb cc cd a1 a2 a3 a4
  ext
  · show (scanOver img l _).minX = mnx
    rcases a1 with h | ⟨p, hp, hop, h⟩
    · omega
    · have := inb p hp hop; omega
  · show (scanOver img l _).minY = mny
    rcases a2 with h | ⟨p, hp, hop, h⟩
    · omega
    · have := inb p hp hop; omega
  · show (scanOver img l _).maxX = mxx
    rcases a3 with h | ⟨p, hp, hop, h⟩
    · omega
    · have := inb p hp hop; omega
  · show (scanOver img l _).maxY = mxy
    rcases a4 with h | ⟨p, hp, hop, h⟩
    · omega
    · have := inb p hp hop; omega

/-- The opening test with the brightness comparison cleared of the division. -/
theorem isOpening_eq (img : Image) (x y : Nat) :
    isOpening img x y =
      ((match img.data[(y * img.width + x) * 4 + 3]? with
        | some alpha => decide (alpha < 50)
        | none => false) ||
       (match img.data[(y * img.width + x) * 4]?, img.data[(y * img.width + x) * 4 + 1]?,
          img.data[(y * img.width + x) * 4 + 2]? with
        | some r, some g, some b => decide (600 < r + g + b)
        | _, _, _ => false)) := by
  rw [Bool.eq_iff_iff, isOpening_iff, Bool.or_eq_true]
  constructor
  · rintro (⟨a, ha, hlt⟩ | ⟨r, g, b, hr, hg, hb, hlt⟩)
    · left; rw [ha]; simpa using hlt
    · right; rw [hr, hg, hb]; simpa using hlt
  · rintro (h | h)
    · left
      split at h
      · rename_i a ha; exact ⟨a, ha, by simpa using h⟩
      · simp at h
    · right
      split at h
      · rename_i r g b hr hg hb
        exact ⟨r, g, b, hr, hg, hb, by simpa using h⟩
      · simp at h

theorem transparentFrame_isOpening (w h x y : Nat) (hx : x < w) (hy : y < h) :
    isOpening (transparentFrame w h) x y = true := by
  rw [isOpening_iff]
  left
  refine ⟨0, ?_, by decide⟩
  have h1 : (y + 1) * w ≤ h * w := Nat.mul_le_mul_right w hy
  have h2 : (y + 1) * w = y * w + w := by ring
  have h3 : h * w = w * h := Nat.mul_comm h w
  show (List.replicate (w * h * 4) 0)[(y * w + x) * 4 + 3]? = some 0
  exact List.getElem?_replicate_of_lt (by omega)

/-- The rectangle returned when the opening pixels span at least two columns
and two rows, for any visiting order of the frame's pixels. -/
theorem detectFrameAreaOver_of_extent (img : Image) (l : List (Nat × Nat))
    (hl : ∀ x y, (x, y) ∈ l ↔ x < img.width ∧ y < img.height)
    (mnx mny mxx mxy : Nat) (hext : OpeningExtent img mnx mny mxx mxy)
    (hx : mnx < mxx) (hy : mny < mxy) :
    detectFrameAreaOver img l =
      { x := mnx, y := mny, width := (mxx : ℚ) - (mnx : ℚ), height := (mxy : ℚ) - (mny : ℚ) } := by
  unfold detectFrameAreaOver
  rw [scanOver_of_extent img l hl mnx mny mxx mxy hext]
  unfold rectOfBounds
  rw [if_neg (by simp only [ge_iff_le]; omega)]

theorem scan_of_extent (img : Image) (mnx mny mxx mxy : Nat)
    (hext : OpeningExtent img mnx mny mxx mxy) :
    scan img = { minX := mnx, minY := mny, maxX := mxx, maxY := mxy } := by
  rw [scan_eq_scanOver]
  exact scanOver_of_extent img _ (fun x y => mem_rowMajor _ _ x y) mnx mny mxx mxy hext

theorem detectFrameArea_of_extent (img : Image) (mnx mny mxx mxy : Nat)
    (hext : OpeningExtent img mnx mny mxx mxy) (hx : mnx < mxx) (hy : mny < mxy) :
    detectFrameArea img =
      { x := mnx, y := mny, width := (mxx : ℚ) - (mnx : ℚ), height := (mxy : ℚ) - (mny : ℚ) } := by
  rw [detectFrameArea_eq_over]
  exact detectFrameAreaOver_of_extent img _ (fun x y => mem_rowMajor _ _ x y)
    mnx mny mxx mxy hext hx hy

theorem usesFallback_of_extent (img : Image) (mnx mny mxx mxy : Nat)
    (hext : OpeningExtent img mnx mny mxx mxy) (hx : mnx < mxx) (hy : mny < mxy) :
    usesFallback img = false := by
  unfold usesFallback
  rw [scan_of_extent img mnx mny mxx mxy hext]
  simp only [ge_iff_le, decide_eq_false_iff_not]
  omega

/-- When every pixel is an opening pixel the opening extends from column 0 to
column `width - 1` and from row 0 to row `height - 1`. -/
theorem extent_of_all_opening (img : Image) (hw : 0 < img.width) (hh : 0 < img.height)
    (hall : ∀ x y, x < img.width → y < img.height → isOpening img x y = true) :
    OpeningExtent img 0 0 (img.width - 1) (img.height - 1) := by
  refine ⟨⟨0, hh, hw, hh, hall 0 0 hw hh⟩,
    ⟨0, hh, by omega, hh, hall _ 0 (by omega) hh⟩,
    ⟨0, hw, hw, hh, hall 0 0 hw hh⟩,
    ⟨0, hw, hw, by omega, hall 0 _ hw (by omega)⟩, ?_⟩
  intro x hx y hy _
  omega

theorem detectFrameArea_of_all_opening (img : Image) (hw : 2 ≤ img.width) (hh : 2 ≤ img.height)
    (hall : ∀ x y, x < img.width → y < img.height → isOpening img x y = true) :
    detectFrameArea img =
        { x := 0, y := 0, width := (img.width : ℚ) - 1, height := (img.height : ℚ) - 1 } ∧
      usesFallback img = false := by
  have hext := extent_of_all_opening img (by omega) (by omega) hall
  refine ⟨?_, usesFallback_of_extent img _ _ _ _ hext (by omega) (by omega)⟩
  rw [detectFrameArea_of_extent img _ _ _ _ hext (by omega) (by omega)]
  have e1 : ((img.width - 1 : Nat) : ℚ) = (img.width : ℚ) - 1 := by
    rw [Nat.cast_sub (by omega)]; simp
  have e2 : ((img.height - 1 : Nat) : ℚ) = (img.height : ℚ) - 1 := by
    rw [Nat.cast_sub (by omega)]; simp
  rw [e1, e2]
  simp

theorem scan_of_no_opening (img : Image)
    (hno : ∀ x y, x < img.width → y < img.height → isOpening img x y = false) :
    scan img = { minX := img.width, minY := img.height, maxX := 0, maxY := 0 } := by
  rw [scan_eq_scanOver]
  apply scanOver_of_no_opening
  rintro ⟨x, y⟩ hp
  have := (mem_rowMajor _ _ x y).1 hp
  exact hno x y this.1 this.2

theorem rectOfBounds_pos (w h : Nat) (b : Bounds) (hw : 0 < w) (hh : 0 < h) :
    0 < (rectOfBounds w h b).width ∧ 0 < (rectOfBounds w h b).height := by
  have hwq : (0 : ℚ) < (w : ℚ) := by exact_mod_cast hw
  have hhq : (0 : ℚ) < (h : ℚ) := by exact_mod_cast hh
  have hm1 : ((min w h : Nat) : ℚ) ≤ (w : ℚ) := by exact_mod_cast Nat.min_le_left w h
  have hm2 : ((min w h : Nat) : ℚ) ≤ (h : ℚ) := by exact_mod_cast Nat.min_le_right w h
  have hm0 : (0 : ℚ) ≤ ((min w h : Nat) : ℚ) := by positivity
  unfold rectOfBounds
  split
  · generalize ((min w h : Nat) : ℚ) = m at hm0 hm1 hm2 ⊢
    constructor
    · show (0 : ℚ) < (w : ℚ) - m * 0.2 - m * 0.2
      norm_num
      linarith
    · show (0 : ℚ) < (h : ℚ) - m * 0.2 - m * 0.2
      norm_num
      linarith
  · rename_i hc
    simp only [ge_iff_le, not_or, not_le] at hc
    constructor
    · show (0 : ℚ) < (b.maxX : ℚ) - (b.minX : ℚ)
      have : (b.minX : ℚ) < (b.maxX : ℚ) := by exact_mod_cast hc.1
      linarith
    · show (0 : ℚ) < (b.maxY : ℚ) - (b.minY : ℚ)
      have : (b.minY : ℚ) < (b.maxY : ℚ) := by exact_mod_cast hc.2
      linarith

/-! ## Detection: the claims -/

/-- C2 (amended): when every pixel of a frame at least 2 wide and 2 high is an
opening pixel, `detectFrameArea` returns `(0, 0, width - 1, height - 1)` and
does not take the fallback; for the fully transparent 400 × 300 frame that is
`(0, 0, 399, 299)`. -/
theorem detectFrameArea_all_opening (img : Image) (hw : 2 ≤ img.width) (hh : 2 ≤ img.height)
    (hall : ∀ x y, x < img.width → y < img.height → isOpening img x y = true) :
    detectFrameArea img =
        { x := 0, y := 0, width := (img.width : ℚ) - 1, height := (img.height : ℚ) - 1 } ∧
      usesFallback img = false :=
  detectFrameArea_of_all_opening img hw hh hall

theorem detectFrameArea_all_opening_witness :
    detectFrameArea (transparentFrame 400 300) =
        { x := 0, y := 0, width := 399, height := 299 } ∧
      usesFallback (transparentFrame 400 300) = false := by
  have h := detectFrameArea_all_opening (transparentFrame 400 300)
    (by show 2 ≤ 400; decide) (by show 2 ≤ 300; decide)
    (fun x y hx hy => transparentFrame_isOpening 400 300 x y hx hy)
  refine ⟨?_, h.2⟩
  rw [h.1]
  show (⟨0, 0, ((400 : Nat) : ℚ) - 1, ((300 : Nat) : ℚ) - 1⟩ : Rectangle) = _
  norm_num

/-- C2 as stated fails: on the fully transparent 400 × 300 frame every pixel
is an opening pixel, yet the rectangle returned is not `(0, 0, 400, 300)`. -/
theorem detectFrameArea_transparent_not_full :
    (∀ x y, x < 400 → y < 300 → isOpening (transparentFrame 400 300) x y = true) ∧
      detectFrameArea (transparentFrame 400 300) ≠
        { x := 0, y := 0, width := 400, height := 300 } := by
  refine ⟨fun x y hx hy => transparentFrame_isOpening 400 300 x y hx hy, ?_⟩
  have h := detectFrameArea_of_all_opening (transparentFrame 400 300)
    (by show 2 ≤ 400; decide) (by show 2 ≤ 300; decide)
    (fun x y hx hy => transparentFrame_isOpening 400 300 x y hx hy)
  rw [h.1]
  intro hc
  have hwidth := congrArg Rectangle.width hc
  have : ((400 : Nat) : ℚ) - 1 = 400 := hwidth
  norm_num at this

/-- C3: when the opening pixels span at least two columns and two rows,
`detectFrameArea` returns the least column, the least row, greatest minus least
column and greatest minus least row of the opening pixels; every opening pixel
lies within the returned rectangle; and visiting the pixels in any other order
gives the same rectangle. -/
theorem detectFrameArea_bounding_box (img : Image) (mnx mny mxx mxy : Nat)
    (hext : OpeningExtent img mnx mny mxx mxy)
    (hcols : ∃ x₁ y₁ x₂ y₂, IsOpeningPixel img x₁ y₁ ∧ IsOpeningPixel img x₂ y₂ ∧ x₁ ≠ x₂)
    (hrows : ∃ x₁ y₁ x₂ y₂, IsOpeningPixel img x₁ y₁ ∧ IsOpeningPixel img x₂ y₂ ∧ y₁ ≠ y₂) :
    detectFrameArea img =
        { x := mnx, y := mny, width := (mxx : ℚ) - (mnx : ℚ), height := (mxy : ℚ) - (mny : ℚ) } ∧
      usesFallback img = false ∧
      (∀ px py, IsOpeningPixel img px py →
        (detectFrameArea img).x ≤ (px : ℚ) ∧
        (px : ℚ) ≤ (detectFrameArea img).x + (detectFrameArea img).width ∧
        (detectFrameArea img).y ≤ (py : ℚ) ∧
        (py : ℚ) ≤ (detectFrameArea img).y + (detectFrameArea img).height) ∧
      (∀ coords : List (Nat × Nat), coords.Perm (rowMajor img.width img.height) →
        detectFrameAreaOver img coords = detectFrameArea img) := by
  have hall := hext.2.2.2.2
  have hx : mnx < mxx := by
    obtain ⟨x₁, y₁, x₂, y₂, h1, h2, hne⟩ := hcols
    have b1 := hall x₁ h1.1 y₁ h1.2.1 h1
    have b2 := hall x₂ h2.1 y₂ h2.2.1 h2
    omega
  have hy : mny < mxy := by
    obtain ⟨x₁, y₁, x₂, y₂, h1, h2, hne⟩ := hrows
    have b1 := hall x₁ h1.1 y₁ h1.2.1 h1
    have b2 := hall x₂ h2.1 y₂ h2.2.1 h2
    omega
  have hres := detectFrameArea_of_extent img mnx mny mxx mxy hext hx hy
  refine ⟨hres, usesFallback_of_extent img mnx mny mxx mxy hext hx hy, ?_, ?_⟩
  · intro px py hp
    obtain ⟨b1, b2, b3, b4⟩ := hall px hp.1 py hp.2.1 hp
    rw [hres]
    have c1 : (mnx : ℚ) ≤ (px : ℚ) := by exact_mod_cast b1
    have c2 : (px : ℚ) ≤ (mxx : ℚ) := by exact_mod_cast b2
    have c3 : (mny : ℚ) ≤ (py : ℚ) := by exact_mod_cast b3
    have c4 : (py : ℚ) ≤ (mxy : ℚ) := by exact_mod_cast b4
    refine ⟨c1, ?_, c3, ?_⟩
    · show (px : ℚ) ≤ (mnx : ℚ) + ((mxx : ℚ) - (mnx : ℚ))
      linarith
    · show (py : ℚ) ≤ (mny : ℚ) + ((mxy : ℚ) - (mny : ℚ))
      linarith
  · intro coords hperm
    rw [detectFrameArea_eq_over]
    unfold detectFrameAreaOver
    rw [scanOver_perm img hperm]

theorem sampleFrame_opening_one : IsOpeningPixel sampleFrame 1 1 :=
  ⟨by decide, by decide, by rw [isOpening_eq]; rfl⟩

theorem sampleFrame_opening_two : IsOpeningPixel sampleFrame 2 2 :=
  ⟨by decide, by decide, by rw [isOpening_eq]; rfl⟩

theorem sampleFrame_extent : OpeningExtent sampleFrame 1 1 2 2 := by
  refine ⟨⟨1, by decide, sampleFrame_opening_one⟩, ⟨2, by decide, sampleFrame_opening_two⟩,
    ⟨1, by decide, sampleFrame_opening_one⟩, ⟨2, by decide, sampleFrame_opening_two⟩, ?_⟩
  intro x hx y hy h
  have hx4 : x < 4 := hx
  have hy4 : y < 4 := hy
  have ho := h.2.2
  rw [isOpening_eq] at ho
  interval_cases x <;> interval_cases y <;>
    first
    | exact absurd ho (by decide)
    | exact ⟨by decide, by decide, by decide, by decide⟩

theorem detectFrameArea_bounding_box_witness :
    detectFrameArea sampleFrame = { x := 1, y := 1, width := 1, height := 1 } ∧
      usesFallback sampleFrame = false := by
  have h := detectFrameArea_bounding_box sampleFrame 1 1 2 2 sampleFrame_extent
    ⟨1, 1, 2, 2, sampleFrame_opening_one, sampleFrame_opening_two, by decide⟩
    ⟨1, 1, 2, 2, sampleFrame_opening_one, sampleFrame_opening_two, by decide⟩
  refine ⟨?_, h.2.1⟩
  rw [h.1]
  norm_num

/-- C4: for a frame of positive width and height without any opening pixel,
`detectFrameArea` returns the fallback rectangle
`(0.2 * min(w, h), 0.2 * min(w, h), w - 0.4 * min(w, h), h - 0.4 * min(w, h))`. -/
theorem detectFrameArea_fallback (img : Image) (_hw : 0 < img.width) (_hh : 0 < img.height)
    (hno : ∀ x y, x < img.width → y < img.height → isOpening img x y = false) :
    detectFrameArea img =
        { x := 0.2 * ((min img.width img.height : Nat) : ℚ)
          y := 0.2 * ((min img.width img.height : Nat) : ℚ)
          width := (img.width : ℚ) - 0.4 * ((min img.width img.height : Nat) : ℚ)
          height := (img.height : ℚ) - 0.4 * ((min img.width img.height : Nat) : ℚ) } ∧
      usesFallback img = true := by
  have hs := scan_of_no_opening img hno
  constructor
  · unfold detectFrameArea
    rw [hs]
    unfold rectOfBounds
    rw [if_pos (Or.inl (Nat.zero_le _))]
    generalize ((min img.width img.height : Nat) : ℚ) = m
    simp only [Rectangle.mk.injEq]
    refine ⟨by ring, by ring, by ring, by ring⟩
  · unfold usesFallback
    rw [hs]
    simp

theorem detectFrameArea_fallback_witness :
    detectFrameArea opaqueFrame = { x := 2 / 5, y := 2 / 5, width := 6 / 5, height := 6 / 5 } ∧
      usesFallback opaqueFrame = true := by
  have h := detectFrameArea_fallback opaqueFrame (by decide) (by decide)
    (by
      intro x y hx hy
      have hx2 : x < 2 := hx
      have hy2 : y < 2 := hy
      rw [isOpening_eq]
      interval_cases x <;> interval_cases y <;> rfl)
  refine ⟨?_, h.2⟩
  rw [h.1]
  show (⟨0.2 * ((min 2 2 : Nat) : ℚ), 0.2 * ((min 2 2 : Nat) : ℚ),
    ((2 : Nat) : ℚ) - 0.4 * ((min 2 2 : Nat) : ℚ),
    ((2 : Nat) : ℚ) - 0.4 * ((min 2 2 : Nat) : ℚ)⟩ : Rectangle) = _
  norm_num

/-- C5: for every frame of positive width and height the rectangle returned by
`detectFrameArea` has positive width and positive height, so the divisor
`frameArea.height` of `createComposite` is not zero. -/
theorem detectFrameArea_positive (img : Image) (hw : 0 < img.width) (hh : 0 < img.height) :
    0 < (detectFrameArea img).width ∧ 0 < (detectFrameArea img).height ∧
      (detectFrameArea img).height ≠ 0 := by
  have h := rectOfBounds_pos img.width img.height (scan img) hw hh
  exact ⟨h.1, h.2, ne_of_gt h.2⟩

theorem detectFrameArea_positive_witness :
    (∀ x y, IsOpeningPixel columnFrame x y → x = 1) ∧
      0 < (detectFrameArea columnFrame).width ∧ 0 < (detectFrameArea columnFrame).height ∧
      (detectFrameArea columnFrame).height ≠ 0 := by
  refine ⟨?_, detectFrameArea_positive columnFrame (by decide) (by decide)⟩
  intro x y h
  have hx : x < 3 := h.1
  have hy : y < 3 := h.2.1
  have ho := h.2.2
  rw [isOpening_eq] at ho
  interval_cases x <;> interval_cases y <;> first | rfl | (exact absurd ho (by decide))

/-! ## Placement geometry -/

theorem placement_wide (productImage : Image) (frameArea : Rectangle)
    (h : (productImage.width : ℚ) / (productImage.height : ℚ) >
      frameArea.width / frameArea.height) :
    placement productImage frameArea =
      { drawX := frameArea.x
        drawY := frameArea.y + (frameArea.height -
          frameArea.width / ((productImage.width : ℚ) / (productImage.height : ℚ))) / 2
        drawWidth := frameArea.width
        drawHeight := frameArea.width / ((productImage.width : ℚ) / (productImage.height : ℚ)) } := by
  unfold placement
  simp only [if_pos h]

theorem placement_tall (productImage : Image) (frameArea : Rectangle)
    (h : ¬ (productImage.width : ℚ) / (productImage.height : ℚ) >
      frameArea.width / frameArea.height) :
    placement productImage frameArea =
      { drawX := frameArea.x + (frameArea.width -
          frameArea.height * ((productImage.width : ℚ) / (productImage.height : ℚ))) / 2
        drawY := frameArea.y
        drawWidth := frameArea.height * ((productImage.width : ℚ) / (productImage.height : ℚ))
        drawHeight := frameArea.height } := by
  unfold placement
  simp only [if_neg h]

/-- C1: for an opening of positive width and height and a product of positive
width and height, the rectangle that `createComposite` draws the product into
has the product's aspect ratio, lies inside the opening, and leaves equal
margins on both sides of each axis. -/
theorem createComposite_placement (frameImage productImage : Image) (frameArea : Rectangle)
    (hw : 0 < frameArea.width) (hh : 0 < frameArea.height)
    (hpw : 0 < productImage.width) (hph : 0 < productImage.height) :
    (createComposite frameImage productImage frameArea).ops.head? =
        some (DrawOp.scaled productImage (placement productImage frameArea)) ∧
      (placement productImage frameArea).drawWidth / (placement productImage frameArea).drawHeight =
        (productImage.width : ℚ) / (productImage.height : ℚ) ∧
      frameArea.x ≤ (placement productImage frameArea).drawX ∧
      frameArea.y ≤ (placement productImage frameArea).drawY ∧
      (placement productImage frameArea).drawX + (placement productImage frameArea).drawWidth ≤
        frameArea.x + frameArea.width ∧
      (placement productImage frameArea).drawY + (placement productImage frameArea).drawHeight ≤
        frameArea.y + frameArea.height ∧
      (placement productImage frameArea).drawX - frameArea.x =
        frameArea.x + frameArea.width -
          ((placement productImage frameArea).drawX + (placement productImage frameArea).drawWidth) ∧
      (placement productImage frameArea).drawY - frameArea.y =
        frameArea.y + frameArea.height -
          ((placement productImage frameArea).drawY + (placement productImage frameArea).drawHeight) := by
  have hpwq : (0 : ℚ) < (productImage.width : ℚ) := by exact_mod_cast hpw
  have hphq : (0 : ℚ) < (productImage.height : ℚ) := by exact_mod_cast hph
  have hr : (0 : ℚ) < (productImage.width : ℚ) / (productImage.height : ℚ) := div_pos hpwq hphq
  refine ⟨rfl, ?_⟩
  by_cases h : (productImage.width : ℚ) / (productImage.height : ℚ) >
      frameArea.width / frameArea.height
  · rw [placement_wide productImage frameArea h]
    generalize (productImage.width : ℚ) / (productImage.height : ℚ) = r at hr h ⊢
    have hle : frameArea.width / r ≤ frameArea.height := by
      rw [div_le_iff₀ hr]
      have := (div_lt_iff₀ hh).1 h
      nlinarith
    simp only
    refine ⟨?_, le_refl _, ?_, ?_, ?_, ?_, ?_⟩
    · field_simp
    · linarith
    · linarith
    · linarith
    · ring
    · ring
  · rw [placement_tall productImage frameArea h]
    generalize (productImage.width : ℚ) / (productImage.height : ℚ) = r at hr h ⊢
    have hle : frameArea.height * r ≤ frameArea.width := by
      have := (le_div_iff₀ hh).1 (not_lt.1 h)
      nlinarith
    simp only
    refine ⟨?_, ?_, le_refl _, ?_, ?_, ?_, ?_⟩
    · field_simp
    · linarith
    · linarith
    · linarith
    · ring
    · ring

theorem createComposite_placement_witness :
    (0 : ℚ) < exampleOpening.width ∧ (0 : ℚ) < exampleOpening.height ∧
      0 < exampleProduct.width ∧ 0 < exampleProduct.height ∧
      placement exampleProduct exampleOpening =
        { drawX := 0, drawY := 50, drawWidth := 400, drawHeight := 200 } ∧
      (placement exampleProduct exampleOpening).drawWidth /
          (placement exampleProduct exampleOpening).drawHeight =
        (exampleProduct.width : ℚ) / (exampleProduct.height : ℚ) ∧
      exampleOpening.y ≤ (placement exampleProduct exampleOpening).drawY ∧
      (placement exampleProduct exampleOpening).drawY +
          (placement exampleProduct exampleOpening).drawHeight ≤
        exampleOpening.y + exampleOpening.height := by
  have hw : (0 : ℚ) < exampleOpening.width := by
    show (0 : ℚ) < 400
    norm_num
  have hh : (0 : ℚ) < exampleOpening.height := by
    show (0 : ℚ) < 300
    norm_num
  have hpw : 0 < exampleProduct.width := by decide
  have hph : 0 < exampleProduct.height := by decide
  have h := createComposite_placement sampleFrame exampleProduct exampleOpening hw hh hpw hph
  refine ⟨hw, hh, hpw, hph, ?_, h.2.1, h.2.2.2.1, h.2.2.2.2.2.1⟩
  have hwide : ((exampleProduct.width : Nat) : ℚ) / ((exampleProduct.height : Nat) : ℚ) >
      exampleOpening.width / exampleOpening.height := by
    show ((800 : Nat) : ℚ) / ((400 : Nat) : ℚ) > (400 : ℚ) / 300
    norm_num
  rw [placement_wide _ _ hwide]
  show (⟨(0 : ℚ), 0 + (300 - 400 / (((800 : Nat) : ℚ) / ((400 : Nat) : ℚ))) / 2, 400,
    400 / (((800 : Nat) : ℚ) / ((400 : Nat) : ℚ))⟩ : DrawRect) = _
  norm_num

/-! ## The batch run -/

theorem compositeLoop_eq (frameImage : Image) (frameArea : Rectangle) (total : Nat)
    (rest : List ProductItem) (i : Nat) (s : State) (log : List Event) :
    compositeLoop frameImage frameArea total rest i (s, log) =
      ({ s with processedImages := s.processedImages ++
            (rest.enumFrom i).map (resultFor frameImage frameArea) },
       log ++ (rest.enumFrom i).flatMap (callsFor frameImage frameArea total)) := by
  induction rest generalizing i s log with
  | nil => simp [compositeLoop]
  | cons p rest ih =>
    rw [compositeLoop, ih]
    simp [resultFor, callsFor, List.append_assoc]

theorem progress_callsFor (frameImage : Image) (frameArea : Rectangle) (total : Nat)
    (rest : List ProductItem) (i : Nat) :
    ((rest.enumFrom i).flatMap (callsFor frameImage frameArea total)).filterMap Event.progress =
      (List.range' (i + 1) rest.length).map (fun k => (k, total)) := by
  induction rest generalizing i with
  | nil => simp
  | cons p rest ih =>
    rw [List.enumFrom_cons, List.flatMap_cons, List.filterMap_append, ih, List.length_cons,
      List.range'_succ, List.map_cons]
    simp [callsFor, List.filterMap_cons, Event.progress]

theorem generateComposites_run (s : State) (frameImage : Image)
    (hf : s.frameImage = some frameImage) (hp : s.productImages ≠ []) :
    generateComposites s =
      ({ s with processedImages :=
          (s.productImages.enumFrom 0).map (resultFor frameImage (detectFrameArea frameImage)) },
       [Event.activateStep 4, Event.showProcessingProgress, Event.detectFrameArea frameImage] ++
         (s.productImages.enumFrom 0).flatMap
           (callsFor frameImage (detectFrameArea frameImage) s.productImages.length) ++
         [Event.hideProcessingProgress, Event.enableDownloads]) := by
  have hlen : ¬ s.productImages.length = 0 := by
    intro h; exact hp (List.length_eq_zero.1 h)
  unfold generateComposites
  rw [hf]
  simp only [if_neg hlen]
  rw [compositeLoop_eq]
  simp

/-- C6: with a frame present and `N ≥ 1` pending products, `generateComposites`
ends with exactly `N` results whatever `processedImages` held before; result
`i` is the composite of product `i`, named `i + 1` followed by ".png", with
that product's file name; the progress updates are `(1, N), ..., (N, N)` in
order; and each iteration composites, appends, then reports, in that order,
before the next iteration starts. -/
theorem generateComposites_batch (s : State) (frameImage : Image)
    (hf : s.frameImage = some frameImage) (hp : s.productImages ≠ []) :
    (generateComposites s).1.processedImages.length = s.productImages.length ∧
      (∀ i p, s.productImages[i]? = some p →
        (generateComposites s).1.processedImages[i]? =
          some (ProcessedImage.mk
            (createComposite frameImage p.image (detectFrameArea frameImage))
            (toString (i + 1) ++ ".png") p.file.name)) ∧
      (generateComposites s).2.filterMap Event.progress =
        (List.range' 1 s.productImages.length).map (fun k => (k, s.productImages.length)) ∧
      (generateComposites s).2 =
        [Event.activateStep 4, Event.showProcessingProgress, Event.detectFrameArea frameImage] ++
          (s.productImages.enumFrom 0).flatMap
            (fun ip =>
              [Event.createComposite frameImage ip.2.image (detectFrameArea frameImage),
               Event.pushProcessed (toString (ip.1 + 1) ++ ".png"),
               Event.updateProcessingProgress (ip.1 + 1) s.productImages.length,
               Event.addResultPreview (toString (ip.1 + 1) ++ ".png")]) ++
          [Event.hideProcessingProgress, Event.enableDownloads] ∧
      (generateComposites s).1.frameImage = s.frameImage ∧
      (generateComposites s).1.productImages = s.productImages := by
  rw [generateComposites_run s frameImage hf hp]
  refine ⟨by simp, ?_, ?_, rfl, rfl, rfl⟩
  · intro i p hip
    simp only [List.getElem?_map, List.getElem?_enumFrom, hip, Option.map_some']
    simp [resultFor]
  · simp only [List.filterMap_append, progress_callsFor]
    simp [Event.progress, List.filterMap_cons, callsFor]

theorem generateComposites_batch_witness :
    sampleState.frameImage = some sampleFrame ∧ sampleState.productImages ≠ [] ∧
      (generateComposites sampleState).1.processedImages.length = 3 ∧
      (generateComposites sampleState).1.processedImages.map (fun r => (r.name, r.originalName)) =
        [("1.png", "a.jpg"), ("2.png", "b.png"), ("3.png", "c.gif")] ∧
      (generateComposites sampleState).2.filterMap Event.progress = [(1, 3), (2, 3), (3, 3)] := by
  have h := generateComposites_batch sampleState sampleFrame rfl (by decide)
  refine ⟨rfl, by decide, h.1, ?_, h.2.2.1⟩
  rw [generateComposites_run sampleState sampleFrame rfl (by decide)]
  decide

/-- C7 (amended): when `frameImage` is null or no product is pending,
`generateComposites` returns at once: the state is left exactly as it was, so
`processedImages` keeps what it held, and no call is made at all, hence no
progress update, no detection and no compositing. -/
theorem generateComposites_noop (s : State)
    (h : s.frameImage = none ∨ s.productImages = []) :
    (generateComposites s).1 = s ∧ (generateComposites s).2 = [] ∧
      (generateComposites s).2.filterMap Event.progress = [] ∧
      (generateComposites s).2.filter Event.isDetectOrComposite = [] ∧
      ((generateComposites s).1.processedImages = [] ↔ s.processedImages = []) := by
  have key : generateComposites s = (s, []) := by
    unfold generateComposites
    rcases h with h | h
    · rw [h]
    · cases s.frameImage with
      | none => rfl
      | some f => simp [h]
  rw [key]
  simp

theorem generateComposites_noop_witness :
    staleState.frameImage = none ∧
      (generateComposites staleState).1 = staleState ∧
      (generateComposites staleState).2 = [] :=
  ⟨rfl, (generateComposites_noop staleState (Or.inl rfl)).1,
    (generateComposites_noop staleState (Or.inl rfl)).2.1⟩

/-- C7 as stated fails: with no frame selected and one result left from an
earlier run, `processedImages` is not empty after `generateComposites`. -/
theorem generateComposites_keeps_stale_results :
    staleState.frameImage = none ∧ staleState.processedImages.length = 1 ∧
      (generateComposites staleState).1.processedImages ≠ [] ∧
      (generateComposites staleState).1.processedImages.length = 1 := by
  refine ⟨rfl, rfl, ?_, rfl⟩
  intro h
  have := congrArg List.length h
  exact absurd this (by decide)

/-! ## Layer order -/

theorem sourceOver_of_full_alpha (src dst : Pixel) (ha : src.a = 255) : sourceOver src dst = src := by
  obtain ⟨r, g, b, a⟩ := src
  simp only at ha
  subst ha
  unfold sourceOver
  simp

theorem pixelAt_inside (img : Image) (x y : Nat) (px : Pixel)
    (h : img.pixelAt x y = some px) : x < img.width ∧ y < img.height := by
  unfold Image.pixelAt at h
  by_contra hc
  rw [if_neg hc] at h
  cases h

/-- C8: for every frame, product and opening, `createComposite` makes a canvas
of the frame's width and height and draws the scaled product first and the
unscaled frame at `(0, 0)` last; and under source-over compositing the output
pixel at every coordinate where the frame is fully opaque (alpha 255) is the
frame's pixel, for any product, opening and resampling. -/
theorem createComposite_frame_on_top
    (resample : Image → DrawRect → Nat → Nat → Option Pixel)
    (frameImage productImage : Image) (frameArea : Rectangle) :
    (createComposite frameImage productImage frameArea).width = frameImage.width ∧
      (createComposite frameImage productImage frameArea).height = frameImage.height ∧
      (createComposite frameImage productImage frameArea).ops =
        [DrawOp.scaled productImage (placement productImage frameArea),
         DrawOp.unscaled frameImage 0 0] ∧
      (∀ (x y : Nat) (px : Pixel), frameImage.pixelAt x y = some px → px.a = 255 →
        (createComposite frameImage productImage frameArea).render resample x y = some px) := by
  refine ⟨rfl, rfl, rfl, ?_⟩
  intro x y px hpx hsolid
  have hin := pixelAt_inside frameImage x y px hpx
  unfold Canvas.render createComposite
  simp only [if_pos hin, List.foldl_cons, List.foldl_nil, DrawOp.layer]
  simp only [Nat.zero_le, and_self, if_true, Nat.sub_zero, hpx]
  rw [sourceOver_of_full_alpha _ _ hsolid]

theorem createComposite_frame_on_top_witness :
    opaqueFrame.pixelAt 0 0 = some { r := (0 : Nat), g := (0 : Nat), b := (0 : Nat), a := (255 : Nat) } ∧
      (createComposite opaqueFrame dot exampleOpening).render redEverywhere 0 0 =
        some { r := (0 : Nat), g := (0 : Nat), b := (0 : Nat), a := (255 : Nat) } ∧
      (createComposite (transparentFrame 400 300) dot exampleOpening).width = 400 ∧
      (createComposite (transparentFrame 400 300) dot exampleOpening).height = 300 ∧
      (createComposite (transparentFrame 400 300) dot exampleOpening).ops =
        [DrawOp.scaled dot (placement dot exampleOpening),
         DrawOp.unscaled (transparentFrame 400 300) 0 0] :=
  ⟨rfl,
   (createComposite_frame_on_top redEverywhere opaqueFrame dot exampleOpening).2.2.2 0 0
      { r := (0 : Nat), g := (0 : Nat), b := (0 : Nat), a := (255 : Nat) } rfl (by norm_num),
   (createComposite_frame_on_top redEverywhere (transparentFrame 400 300) dot exampleOpening).1,
   (createComposite_frame_on_top redEverywhere (transparentFrame 400 300) dot exampleOpening).2.1,
   (createComposite_frame_on_top redEverywhere (transparentFrame 400 300) dot
      exampleOpening).2.2.1⟩

/-! ## Upload and removal -/

/-- C9 fails on the code: the clock readings 1000, 1004, 1005 never decrease,
yet `b.png` (second file of the first upload) and `c.webp` (first file of the
second upload) both get id 1005, and `removeProductImage(1005)` removes both. -/
theorem productIds_collide :
    [firstClock 0, firstClock 1, secondClock 0] = [1000, 1004, 1005] ∧
      afterSecondUpload.productImages.map (fun p => (p.file.name, p.id)) =
        [("a.jpg", 1000), ("b.png", 1005), ("c.webp", 1005)] ∧
      ¬ (afterSecondUpload.productImages.map (fun p => p.id)).Nodup ∧
      (removeProductImage 1005 afterSecondUpload).1.productImages.map (fun p => p.file.name) =
        ["a.jpg"] := by
  decide

theorem isValidImageFile_iff (file : File) :
    isValidImageFile file = true ↔
      file.type ∈ ["image/jpeg", "image/png", "image/gif", "image/webp"] := by
  unfold isValidImageFile
  rw [Bool.and_eq_true, List.contains_iff_exists_mem_beq]
  simp only [beq_iff_eq, exists_eq_right']
  constructor
  · exact fun h => h.2
  · intro h
    refine ⟨?_, h⟩
    simp only [List.mem_cons, List.mem_singleton, List.not_mem_nil, or_false] at h
    rcases h with h | h | h | h <;> rw [h] <;> decide

theorem uploadLoop_spec (loadImage : File → Option Image) (now : Nat → Nat) (total : Nat)
    (rest : List File) (i : Nat) (s : State) (log : List Event) :
    ∃ (items : List ProductItem) (calls : List Event),
      (uploadLoop loadImage now total rest i (s, log)).1 =
          { s with productImages := s.productImages ++ items } ∧
        (uploadLoop loadImage now total rest i (s, log)).2.1 = log ++ calls ∧
        items.map (fun p => p.file) <+: rest ∧
        calls.filterMap Event.loadedFile <+: rest ∧
        ((∀ f ∈ rest, loadImage f ≠ none) → items.map (fun p => p.file) = rest) := by
  induction rest generalizing i s log with
  | nil =>
    exact ⟨[], [], by simp [uploadLoop], by simp [uploadLoop], List.nil_prefix, List.nil_prefix,
      fun _ => rfl⟩
  | cons file rest ih =>
    cases hdec : loadImage file with
    | none =>
      refine ⟨[], [Event.loadImage file, Event.loadImageRejected file], ?_, ?_,
        List.nil_prefix, ?_, ?_⟩
      · simp [uploadLoop, hdec]
      · simp [uploadLoop, hdec]
      · simp [Event.loadedFile, List.filterMap_cons]
      · intro hall
        exact absurd hdec (hall file (List.mem_cons_self _ _))
    | some image =>
      obtain ⟨items, calls, h1, h2, h3, h4, h5⟩ :=
        ih (i + 1)
          { s with productImages := s.productImages ++
              [{ file := file, image := image, id := now i + i }] }
          (log ++ [Event.loadImage file, Event.pushProduct (now i + i),
            Event.updateUploadProgress (i + 1) total, Event.addProductThumbnail (now i + i)])
      refine ⟨{ file := file, image := image, id := now i + i } :: items,
        [Event.loadImage file, Event.pushProduct (now i + i),
          Event.updateUploadProgress (i + 1) total, Event.addProductThumbnail (now i + i)] ++ calls,
        ?_, ?_, ?_, ?_, ?_⟩
      · simp only [uploadLoop, hdec]
        rw [h1]
        simp
      · simp only [uploadLoop, hdec]
        rw [h2]
        simp
      · simpa using h3
      · simpa [Event.loadedFile, List.filterMap_cons] using h4
      · intro hall
        have := h5 (fun f hf => hall f (List.mem_cons_of_mem _ hf))
        simp [this]

theorem handleProductUpload_spec (loadImage : File → Option Image) (now : Nat → Nat)
    (files : List File) (s : State) :
    ∃ (items : List ProductItem),
      (handleProductUpload loadImage now files s).1 =
          { s with productImages := s.productImages ++ items } ∧
        items.map (fun p => p.file) <+: files.filter isValidImageFile ∧
        (handleProductUpload loadImage now files s).2.filterMap Event.loadedFile <+:
          files.filter isValidImageFile ∧
        ((∀ f ∈ files, loadImage f ≠ none) →
          items.map (fun p => p.file) = files.filter isValidImageFile) := by
  unfold handleProductUpload
  by_cases hv : (files.filter isValidImageFile).length = 0
  · simp only [if_pos hv]
    refine ⟨[], by simp, List.nil_prefix, ?_, ?_⟩
    · simp [Event.loadedFile, List.filterMap_cons]
    · intro _
      exact (List.length_eq_zero.1 hv).symm
  · simp only [if_neg hv]
    obtain ⟨items, calls, h1, h2, h3, h4, h5⟩ :=
      uploadLoop_spec loadImage now (files.filter isValidImageFile).length
        (files.filter isValidImageFile) 0 s [Event.showUploadProgress]
    generalize uploadLoop loadImage now (files.filter isValidImageFile).length
      (files.filter isValidImageFile) 0 (s, [Event.showUploadProgress]) = r at h1 h2
    obtain ⟨s1, log, flag⟩ := r
    simp only at h1 h2
    subst h1 h2
    refine ⟨items, ?_, h3, ?_, ?_⟩
    · cases flag <;> rfl
    · cases flag
      · simpa [Event.loadedFile, List.filterMap_cons] using h4
      · simpa [Event.loadedFile, List.filterMap_cons] using h4
    · intro hall
      exact h5 (fun f hf => hall f (List.mem_of_mem_filter hf))

/-- C10: `isValidImageFile` accepts exactly the MIME types image/jpeg,
image/png, image/gif and image/webp, so text/plain is rejected; and
`handleProductUpload` hands to `loadImage` and appends to `productImages` only
accepted files, in their uploaded order, and leaves the state as it was when
no uploaded file is accepted. -/
theorem handleProductUpload_only_valid (loadImage : File → Option Image) (now : Nat → Nat)
    (files : List File) (s : State) :
    (∀ file : File, isValidImageFile file = true ↔
        file.type ∈ ["image/jpeg", "image/png", "image/gif", "image/webp"]) ∧
      (∀ name : String, isValidImageFile { name := name, type := "text/plain" } = false) ∧
      (∀ f ∈ (handleProductUpload loadImage now files s).2.filterMap Event.loadedFile,
        isValidImageFile f = true) ∧
      (handleProductUpload loadImage now files s).2.filterMap Event.loadedFile <+:
        files.filter isValidImageFile ∧
      (∃ items : List ProductItem,
        (handleProductUpload loadImage now files s).1 =
            { s with productImages := s.productImages ++ items } ∧
          (∀ p ∈ items, isValidImageFile p.file = true) ∧
          items.map (fun p => p.file) <+: files.filter isValidImageFile ∧
          ((∀ f ∈ files, loadImage f ≠ none) →
            items.map (fun p => p.file) = files.filter isValidImageFile)) ∧
      ((∀ f ∈ files, isValidImageFile f = false) →
        (handleProductUpload loadImage now files s).1 = s ∧
          (handleProductUpload loadImage now files s).2.filterMap Event.loadedFile = []) := by
  obtain ⟨items, h1, h2, h3, h4⟩ := handleProductUpload_spec loadImage now files s
  have hsub : ∀ l : List File, l <+: files.filter isValidImageFile →
      ∀ f ∈ l, isValidImageFile f = true := by
    intro l hl f hf
    exact (List.mem_filter.1 (hl.subset hf)).2
  refine ⟨isValidImageFile_iff, fun name => by
      have hn : ¬ isValidImageFile { name := name, type := "text/plain" } = true := by
        rw [isValidImageFile_iff]
        show ¬ "text/plain" ∈ ["image/jpeg", "image/png", "image/gif", "image/webp"]
        decide
      simpa using hn, hsub _ h3, h3,
    ⟨items, h1, ?_, h2, h4⟩, ?_⟩
  · intro p hp
    exact hsub _ h2 p.file (List.mem_map.2 ⟨p, hp, rfl⟩)
  · intro hnone
    have hnil : files.filter isValidImageFile = [] := by
      rw [List.filter_eq_nil_iff]
      intro f hf
      rw [hnone f hf]
      decide
    rw [hnil] at h2 h3
    have hitems : items = [] := by
      have := List.prefix_nil.1 h2
      exact List.map_eq_nil_iff.1 this
    refine ⟨?_, List.prefix_nil.1 h3⟩
    rw [h1, hitems]
    simp

theorem handleProductUpload_only_valid_witness :
    (handleProductUpload decodeDot firstClock [notes, fileA, notes, fileB] emptyState).1.productImages.map
        (fun p => p.file) = [fileA, fileB] ∧
      (handleProductUpload decodeDot firstClock [notes, notes] sampleState).1 = sampleState ∧
      (handleProductUpload decodeDot firstClock [notes, notes] sampleState).2.filterMap
        Event.loadedFile = [] := by
  have h := handleProductUpload_only_valid decodeDot firstClock [notes, notes] sampleState
  have hno := h.2.2.2.2.2 (by decide)
  exact ⟨by decide, hno.1, hno.2⟩

end FrameComposite

